import Mathlib

/-!
Verification of the frame-transport layer of the RPI-Screen-mirror
repository (files rpi_screen_sender.py and pc_screen_receiver.py).

The transport code is shallowly embedded as follows.

Bytes are modelled as natural numbers (every byte produced by the code is
below 256; payload bytes are opaque to the transport).  The serial port on
the receiving side is modelled by a read primitive of type
S -> Nat -> List Nat x S : given the port state and a requested byte
count it returns the bytes obtained and the new port state.  Two
instantiations are used:

* flatRead: the port state is the list of bytes that arrive before the
  stream stalls.  pyserial read(n) with a timeout blocks until n bytes
  are buffered or the timeout fires, and then returns at most n bytes,
  consuming them; over such a state this is exactly (take n, drop n).

* chunkRead: the port state is an internal buffer plus the list of
  chunks still to arrive.  read(n) accumulates arriving chunks until at
  least n bytes are buffered (or nothing is left), then returns at most
  n bytes.  This models pyserial reads over a stream delivered in
  arbitrary chunks with no stall longer than the timeout.

The receiver loop body (pc_screen_receiver.py lines 49-87) is embedded
generically over the read primitive; the running flag is modelled as
constantly true, since one loop iteration never changes it.  The JPEG
decoder is an external collaborator and is modelled by an abstract
predicate decodeOk : List Nat -> Bool; Image.open succeeding corresponds
to decodeOk returning true.  The Qt signal emissions frame_received and
error_occurred of one iteration are collected in a list of RecvEvent.
-/

/-- One byte emission observable of a receiver loop iteration:
either frame_received (with the framed payload) or the error_occurred
emission from the decode-exception handler
(pc_screen_receiver.py line 87). -/
inductive RecvEvent where
  | frame (payload : List Nat)
  | decodeError
deriving DecidableEq, Repr

/-- struct.pack with format >I : the 4-byte big-endian encoding of n.
(struct.pack raises for n >= 2^32; all uses below are bounded by
maxPayload.) -/
def packBE32 (n : Nat) : List Nat :=
  [n / 2 ^ 24 % 256, n / 2 ^ 16 % 256, n / 2 ^ 8 % 256, n % 256]

/-- struct.unpack with format >I applied to a 4-byte string
(pc_screen_receiver.py line 56): big-endian value of the bytes. -/
def unpackBE32 (bs : List Nat) : Nat :=
  bs.foldl (fun a b => a * 256 + b) 0

/-- The largest length the 4-byte wire format can carry.  The spec
leaves the maximum payload length implementation-defined; the code
imposes none, so the only hard bound is the 32-bit length field. -/
def maxPayload : Nat := 2 ^ 32 - 1

/-- The envelope the sender puts on the wire
(rpi_screen_sender.py lines 87-95): the 4-byte big-endian length
followed by the payload bytes. -/
def encodeEnvelope (P : List Nat) : List Nat :=
  packBE32 P.length ++ P

/-- pyserial read(n) over a stalled-tail stream state: returns up to n
bytes from the front and consumes them. -/
def flatRead (s : List Nat) (n : Nat) : List Nat × List Nat :=
  (s.take n, s.drop n)

/-- The payload-accumulation loop of the receiver
(pc_screen_receiver.py lines 59-67):

    jpeg_data = bytearray(); remaining = frame_size
    while remaining > 0 and self.running:
        chunk = self.serial_port.read(min(remaining, 4096))
        if not chunk: break
        jpeg_data.extend(chunk); remaining -= len(chunk)

Returns (jpeg_data, remaining, port state).  The recursion is generic in
the read primitive; r is the remaining count, acc the bytes collected so
far. -/
def recvPayload {S : Type} (read : S → Nat → List Nat × S) (r : Nat) (s : S)
    (acc : List Nat) : List Nat × Nat × S :=
  if hr : r = 0 then (acc, 0, s)
  else
    if hc : (read s (min r 4096)).1 = [] then (acc, r, (read s (min r 4096)).2)
    else
      recvPayload read (r - (read s (min r 4096)).1.length)
        (read s (min r 4096)).2 (acc ++ (read s (min r 4096)).1)
termination_by r
decreasing_by
  have hlen : 0 < (read s (min r 4096)).1.length := List.length_pos.mpr hc
  omega

/-- One iteration of the receiver loop body
(pc_screen_receiver.py lines 49-87): read the 4-byte header (a short
header makes the iteration continue with no emission), unpack the
big-endian frame size, accumulate the payload, and only when exactly
frame_size bytes were collected hand them to the decoder, emitting
frame_received on success and error_occurred on a decode exception.
Returns the emissions of the iteration and the port state after it. -/
def recvIter {S : Type} (decodeOk : List Nat → Bool)
    (read : S → Nat → List Nat × S) (s : S) : List RecvEvent × S :=
  let r0 := read s 4
  if r0.1.length < 4 then ([], r0.2)
  else
    let frame_size := unpackBE32 r0.1
    let res := recvPayload read frame_size r0.2 []
    if res.1.length = frame_size then
      (if decodeOk res.1 then [RecvEvent.frame res.1] else [RecvEvent.decodeError],
       res.2.2)
    else ([], res.2.2)

/-- n iterations of the receiver loop (the while self.running loop of
pc_screen_receiver.py line 49), collecting all emissions in order. -/
def recvRun {S : Type} (decodeOk : List Nat → Bool)
    (read : S → Nat → List Nat × S) : Nat → S → List RecvEvent × S
  | 0, s => ([], s)
  | n + 1, s =>
    let r := recvIter decodeOk read s
    let rest := recvRun decodeOk read n r.2
    (r.1 ++ rest.1, rest.2)

/-- Port state for the chunk-delivery model of the serial line: bytes
already buffered by the OS plus the chunks still to arrive (each chunk
one delivery, all arriving within the read timeout). -/
structure SerialBuf where
  buffered : List Nat
  pending : List (List Nat)
deriving DecidableEq, Repr

/-- Blocking accumulation inside pyserial read(n): arriving chunks are
moved into the buffer until at least n bytes are buffered or no chunk
is left.  Returns the buffer and the chunks still pending. -/
def fillBuf (n : Nat) (buffered : List Nat) :
    List (List Nat) → List Nat × List (List Nat)
  | [] => (buffered, [])
  | c :: cs =>
    if n ≤ buffered.length then (buffered, c :: cs)
    else fillBuf n (buffered ++ c) cs

/-- pyserial read(n) over the chunk-delivery model: block until n bytes
are buffered (or deliveries run out), then return at most n bytes and
consume them from the buffer. -/
def chunkRead (b : SerialBuf) (n : Nat) : List Nat × SerialBuf :=
  ((fillBuf n b.buffered b.pending).1.take n,
   ⟨(fillBuf n b.buffered b.pending).1.drop n, (fillBuf n b.buffered b.pending).2⟩)

/-- All bytes a chunk-model port state will ever deliver, in order. -/
def flatBuf (b : SerialBuf) : List Nat :=
  b.buffered ++ b.pending.flatten

/-- One operation performed on the sender serial handle:
serial_conn.write(bytes) or serial_conn.flush(). -/
inductive WriteOp where
  | write (bs : List Nat)
  | flush
deriving DecidableEq, Repr

/-- The transport-writer part of ScreenSender.compress_and_send_frame
(rpi_screen_sender.py lines 87-96); the JPEG compression that produces
jpeg_bytes is an external collaborator (spec section 1), so the model
starts from the payload bytes:

    data_size = len(jpeg_bytes)
    size_bytes = struct.pack(">I", data_size)
    serial_conn.write(size_bytes)
    serial_conn.write(jpeg_bytes)
    serial_conn.flush()
    return data_size

The serial handle is modelled by the trace of operations performed on
it; the function returns the extended trace and the returned size. -/
def compress_and_send_frame (conn : List WriteOp) (jpeg_bytes : List Nat) :
    List WriteOp × Nat :=
  let data_size := jpeg_bytes.length
  let size_bytes := packBE32 data_size
  let conn₁ := conn ++ [WriteOp.write size_bytes]
  let conn₂ := conn₁ ++ [WriteOp.write jpeg_bytes]
  let conn₃ := conn₂ ++ [WriteOp.flush]
  (conn₃, data_size)

/-- TARGET_FPS (rpi_screen_sender.py line 47), as an exact rational. -/
def TARGET_FPS : ℚ := 15

/-- FRAME_INTERVAL = 1.0 / TARGET_FPS (rpi_screen_sender.py line 48). -/
def FRAME_INTERVAL : ℚ := 1 / TARGET_FPS

/-- The pacing computation of ScreenSender.sender_loop
(rpi_screen_sender.py line 144):

    sleep_time = max(0, FRAME_INTERVAL - process_time)

modelled over exact rationals (the Python floats carry rounding error;
the claim asks for the value within floating-point tolerance, which the
exact model settles).  The target interval is a parameter so the
property is stated for every target, FRAME_INTERVAL being the value the
program uses. -/
def sleep_time (target_interval process_time : ℚ) : ℚ :=
  max 0 (target_interval - process_time)

/-- The receiver rate accounting (pc_screen_receiver.py lines 45-47 and
76-84).  State is (frames_received, last_fps_update); start_time is the
wall-clock time the loop started.  The input list holds the wall-clock
times at which successive frames finish decoding; the output lists the
fps_update emissions as (time, value) pairs:

    frames_received += 1
    elapsed = current_time - start_time
    if current_time - last_fps_update >= 1.0:
        fps = frames_received / elapsed
        self.fps_update.emit(fps)
        last_fps_update = current_time
-/
def fpsRun (start_time : ℚ) : Nat × ℚ → List ℚ → List (ℚ × ℚ)
  | _, [] => []
  | (frames_received, last_fps_update), t :: ts =>
    let frames := frames_received + 1
    let elapsed := t - start_time
    if 1 ≤ t - last_fps_update then
      (t, (frames : ℚ) / elapsed) :: fpsRun start_time (frames, t) ts
    else fpsRun start_time (frames, last_fps_update) ts

/-- Modelled from the spec: the rate accounting the spec describes
(sections 3 and 4.6), missing from the code, kept for comparison with
fpsRun.  A rolling window accumulates frames_count and elapsed_time
since the last report and is reset each time a sample is emitted; the
emitted value is the rolling count over the rolling elapsed time. -/
def specRollingRun (start_time : ℚ) : Nat × ℚ → List ℚ → List (ℚ × ℚ)
  | _, [] => []
  | (frames_count, last_report), t :: ts =>
    let frames := frames_count + 1
    if 1 ≤ t - last_report then
      (t, (frames : ℚ) / (t - last_report)) :: specRollingRun start_time (0, t) ts
    else specRollingRun start_time (frames, last_report) ts

theorem unpackBE32_packBE32 (n : Nat) (h : n < 2 ^ 32) :
    unpackBE32 (packBE32 n) = n := by
  simp only [packBE32, unpackBE32, List.foldl]
  omega

theorem packBE32_length (n : Nat) : (packBE32 n).length = 4 := rfl

/-- Full characterization of the payload loop over the flat read model:
it collects the first r available bytes, leaves r minus what it got as
the final remaining count, and consumes exactly what it collected. -/
theorem recvPayload_flat (r : Nat) (s acc : List Nat) :
    recvPayload flatRead r s acc =
      (acc ++ s.take r, r - min r s.length, s.drop r) := by
  induction r using Nat.strong_induction_on generalizing s acc with
  | _ r ih =>
    rw [recvPayload.eq_def]
    by_cases hr : r = 0
    · subst hr; simp
    · simp only [hr, dite_false, flatRead]
      by_cases hc : s.take (min r 4096) = []
      · simp only [hc, dite_true]
        have hs : s = [] := by
          rcases List.take_eq_nil_iff.mp hc with h | h
          · omega
          · exact h
        subst hs
        simp
      · simp only [hc, dite_false]
        have hpos : 0 < (s.take (min r 4096)).length := List.length_pos.mpr hc
        have hlt : r - (s.take (min r 4096)).length < r := by omega
        rw [ih _ hlt]
        have hlen : (s.take (min r 4096)).length = min (min r 4096) s.length :=
          List.length_take _ _
        by_cases hnL : min r 4096 ≤ s.length
        · have hceq : (s.take (min r 4096)).length = min r 4096 := by omega
          rw [hceq]
          refine congrArg₂ _ ?_ (congrArg₂ _ ?_ ?_)
          · rw [List.append_assoc, ← List.take_add]
            congr 2
            omega
          · simp only [List.length_drop]
            omega
          · rw [List.drop_drop]
            congr 1
            omega
        · have hsr : s.length ≤ min r 4096 := by omega
          rw [List.take_of_length_le hsr, List.drop_eq_nil_of_le hsr]
          have h1 : s.take r = s := List.take_of_length_le (by omega)
          have h2 : s.drop r = [] := List.drop_eq_nil_of_le (by omega)
          rw [h1, h2]
          simp only [List.take_nil, List.drop_nil, List.append_nil,
            List.length_nil, Nat.min_zero, Nat.sub_zero]
          refine congrArg₂ _ rfl (congrArg₂ _ ?_ rfl)
          omega

/-- One receiver iteration on a stream that starts with a packed
length L: if at least L payload bytes are available the frame is framed
and handed to the decoder; otherwise the iteration consumes everything
and emits nothing. -/
theorem recvIter_flat_pack (dOk : List Nat → Bool) (L : Nat) (t : List Nat)
    (h32 : L < 2 ^ 32) :
    recvIter dOk flatRead (packBE32 L ++ t) =
      if L ≤ t.length then
        ((if dOk (t.take L) then [RecvEvent.frame (t.take L)]
          else [RecvEvent.decodeError]), t.drop L)
      else ([], []) := by
  have hpt : (packBE32 L ++ t).take 4 = packBE32 L := by
    rw [← packBE32_length L]
    exact List.take_left _ _
  have hpd : (packBE32 L ++ t).drop 4 = t := by
    rw [← packBE32_length L]
    exact List.drop_left _ _
  simp only [recvIter, flatRead, hpt, hpd, packBE32_length]
  rw [if_neg (by omega : ¬ (4 < 4)), unpackBE32_packBE32 L h32,
    recvPayload_flat]
  simp only [List.nil_append, List.length_take]
  by_cases hL : L ≤ t.length
  · rw [if_pos (by omega : min L t.length = L), if_pos hL]
  · rw [if_neg (by omega : ¬ min L t.length = L), if_neg hL,
      List.drop_eq_nil_of_le (by omega : t.length ≤ L)]

/-- One receiver iteration on a stream that starts with a complete
sender envelope: the payload is framed, handed to the decoder, and
exactly the envelope bytes are consumed. -/
theorem recvIter_flat_envelope (dOk : List Nat → Bool) (P rest : List Nat)
    (h32 : P.length < 2 ^ 32) :
    recvIter dOk flatRead (encodeEnvelope P ++ rest) =
      ((if dOk P then [RecvEvent.frame P] else [RecvEvent.decodeError]), rest) := by
  rw [encodeEnvelope, List.append_assoc, recvIter_flat_pack dOk P.length (P ++ rest) h32,
    if_pos (by simp), List.take_left, List.drop_left]

theorem recvRun_zero {S : Type} (dOk : List Nat → Bool)
    (read : S → Nat → List Nat × S) (s : S) :
    recvRun dOk read 0 s = ([], s) := rfl

theorem recvRun_succ {S : Type} (dOk : List Nat → Bool)
    (read : S → Nat → List Nat × S) (n : Nat) (s : S) :
    recvRun dOk read (n + 1) s =
      ((recvIter dOk read s).1 ++ (recvRun dOk read n (recvIter dOk read s).2).1,
       (recvRun dOk read n (recvIter dOk read s).2).2) := rfl

/-- C1: for every payload P with 0 <= len(P) <= max, writing P through
the sender envelope encoding (4-byte big-endian length followed by the
payload bytes) and running the receiver envelope decoding on the
resulting byte stream yields exactly P: one receiver iteration on the
bytes of encodeEnvelope P frames exactly the payload P (and consumes
the whole stream). -/
theorem roundtrip_envelope (P : List Nat) (h : P.length ≤ maxPayload) :
    recvIter (fun _ => true) flatRead (encodeEnvelope P) =
      ([RecvEvent.frame P], []) := by
  have h32 : P.length < 2 ^ 32 := by
    have : maxPayload = 2 ^ 32 - 1 := rfl
    omega
  have he := recvIter_flat_envelope (fun _ => true) P [] h32
  rw [List.append_nil] at he
  simpa using he

theorem roundtrip_envelope_witness :
    ([1, 2, 3] : List Nat).length ≤ maxPayload ∧
      recvIter (fun _ => true) flatRead (encodeEnvelope [1, 2, 3]) =
        ([RecvEvent.frame [1, 2, 3]], []) :=
  ⟨by decide, roundtrip_envelope [1, 2, 3] (by decide)⟩

/-- C2 (evaluation of the code at the failing input): the header bytes
[0,0,0,1] of the envelope for payload [7] arrive split as [0,0,0]
followed by a stall longer than the read timeout, then [1,7] arrives.
pyserial read(4) returns the three partial bytes at the timeout and
line 53 discards them with continue, so the iteration on the partial
delivery consumes the bytes while emitting nothing; the next iteration
starts interpreting at [1,7] (and again consumes it without a frame),
whereas on the unbroken stream the very same bytes decode to the frame
[7].  The partially received header bytes are therefore not retained. -/
theorem header_bytes_discarded :
    recvIter (fun _ => true) flatRead [0, 0, 0] = ([], []) ∧
    recvIter (fun _ => true) flatRead [1, 7] = ([], []) ∧
    recvIter (fun _ => true) flatRead [0, 0, 0, 1, 7] =
      ([RecvEvent.frame [7]], []) := by
  refine ⟨by decide, by decide, ?_⟩
  have hp : (packBE32 1 ++ [7] : List Nat) = [0, 0, 0, 1, 7] := by decide
  have := recvIter_flat_pack (fun _ => true) 1 [7] (by omega)
  rw [hp] at this
  simpa using this

/-- C3 (counterexample): a header declaring the largest possible
length 2^32 - 1 = 4294967295 — larger than any sane configured maximum —
followed by three payload bytes.  The receiver raises no error of any
kind (the emission list is empty) and it does attempt to read the
declared payload: the three available bytes are consumed (final stream
state is empty), contradicting both parts of the claim. -/
theorem oversize_not_rejected :
    recvIter (fun _ => true) flatRead
      ([255, 255, 255, 255] ++ [9, 9, 9]) = ([], []) := by
  have hp : (packBE32 (2 ^ 32 - 1) : List Nat) = [255, 255, 255, 255] := by decide
  have := recvIter_flat_pack (fun _ => true) (2 ^ 32 - 1) [9, 9, 9] (by omega)
  rw [hp, if_neg (by simp)] at this
  exact this

/-- C3 (amended): the receiver performs no maximum-length check at all.
Whatever length L the header declares (any value the 32-bit field can
carry), the receiver proceeds to read L payload bytes in chunks of at
most 4096 and, when they are available, frames them normally; no
integrity error is ever raised. -/
theorem no_length_limit (dOk : List Nat → Bool) (L : Nat) (t : List Nat)
    (hmax : L ≤ maxPayload) (hLt : L ≤ t.length) :
    recvIter dOk flatRead (packBE32 L ++ t) =
      ((if dOk (t.take L) then [RecvEvent.frame (t.take L)]
        else [RecvEvent.decodeError]), t.drop L) := by
  have h32 : L < 2 ^ 32 := by
    have : maxPayload = 2 ^ 32 - 1 := rfl
    omega
  rw [recvIter_flat_pack dOk L t h32, if_pos hLt]

theorem no_length_limit_witness :
    5000 ≤ maxPayload ∧ 5000 ≤ (List.replicate 5000 (0 : Nat)).length ∧
      recvIter (fun _ => true) flatRead
          (packBE32 5000 ++ List.replicate 5000 (0 : Nat)) =
        ((if (fun _ => true) ((List.replicate 5000 (0 : Nat)).take 5000) then
            [RecvEvent.frame ((List.replicate 5000 (0 : Nat)).take 5000)]
          else [RecvEvent.decodeError]),
         (List.replicate 5000 (0 : Nat)).drop 5000) :=
  ⟨by decide, by rw [List.length_replicate],
    no_length_limit (fun _ => true) 5000 _ (by decide)
      (by rw [List.length_replicate])⟩

/-- C5 (counterexample): a header declaring 5 payload bytes followed by
only 2 bytes and then end of data.  The receiver stops early and does
not decode the partial payload, but it reports nothing at all: the
emission list is empty, so no incomplete-payload condition is reported,
contradicting the reporting part of the claim. -/
theorem incomplete_payload_unreported :
    recvIter (fun _ => true) flatRead [0, 0, 0, 5, 1, 2] = ([], []) := by
  have hp : (packBE32 5 ++ [1, 2] : List Nat) = [0, 0, 0, 5, 1, 2] := by decide
  have := recvIter_flat_pack (fun _ => true) 5 [1, 2] (by omega)
  rw [hp, if_neg (by simp)] at this
  exact this

/-- C5 (amended): for every envelope whose stream ends before all L
declared payload bytes arrive, the receiver stops accumulating early
and never passes the partial payload to the decode stage — a frame is
emitted only when all L bytes are collected — but it reports nothing:
the partial payload is discarded silently and the loop retries.  The
quantification over decodeOk shows the decoder is not consulted. -/
theorem incomplete_payload_dropped (dOk : List Nat → Bool) (L : Nat)
    (t : List Nat) (hmax : L ≤ maxPayload) (ht : t.length < L) :
    recvIter dOk flatRead (packBE32 L ++ t) = ([], []) := by
  have h32 : L < 2 ^ 32 := by
    have : maxPayload = 2 ^ 32 - 1 := rfl
    omega
  rw [recvIter_flat_pack dOk L t h32, if_neg (by omega)]

theorem incomplete_payload_dropped_witness :
    3 ≤ maxPayload ∧ ([1] : List Nat).length < 3 ∧
      recvIter (fun _ => false) flatRead (packBE32 3 ++ [1]) = ([], []) :=
  ⟨by decide, by decide, incomplete_payload_dropped (fun _ => false) 3 [1] (by decide) (by decide)⟩

/-- C6: a well-framed envelope whose payload the decoder rejects is
non-fatal: the iteration emits exactly one decode-failure report,
consumes exactly its envelope bytes, and the next iteration decodes
the following well-formed envelope, which is emitted as a frame. -/
theorem decode_failure_recovery (dOk : List Nat → Bool) (P₁ P₂ : List Nat)
    (h₁ : P₁.length ≤ maxPayload) (h₂ : P₂.length ≤ maxPayload)
    (hd₁ : dOk P₁ = false) (hd₂ : dOk P₂ = true) :
    recvRun dOk flatRead 2 (encodeEnvelope P₁ ++ encodeEnvelope P₂) =
      ([RecvEvent.decodeError, RecvEvent.frame P₂], []) := by
  have hmax : maxPayload = 2 ^ 32 - 1 := rfl
  have h32a : P₁.length < 2 ^ 32 := by omega
  have h32b : P₂.length < 2 ^ 32 := by omega
  have e₂ : recvIter dOk flatRead (encodeEnvelope P₂) =
      ([RecvEvent.frame P₂], []) := by
    have := recvIter_flat_envelope dOk P₂ [] h32b
    rw [List.append_nil, hd₂] at this
    simpa using this
  rw [show (2 : Nat) = 1 + 1 from rfl, recvRun_succ,
    recvIter_flat_envelope dOk P₁ (encodeEnvelope P₂) h32a, hd₁,
    show (1 : Nat) = 0 + 1 from rfl, recvRun_succ, e₂, recvRun_zero]
  simp

theorem decode_failure_recovery_witness :
    ([0] : List Nat).length ≤ maxPayload ∧ ([9] : List Nat).length ≤ maxPayload ∧
      (fun bs => decide (bs = [9])) [0] = false ∧
      (fun bs => decide (bs = [9])) [9] = true ∧
      recvRun (fun bs => decide (bs = [9])) flatRead 2
          (encodeEnvelope [0] ++ encodeEnvelope [9]) =
        ([RecvEvent.decodeError, RecvEvent.frame [9]], []) :=
  ⟨by decide, by decide, by decide, by decide,
    decode_failure_recovery (fun bs => decide (bs = [9])) [0] [9]
      (by decide) (by decide) (by decide) (by decide)⟩

/-- C10: the payload-accumulation loop invariant.  Every intermediate
state of the loop is the initial state (r, s, acc) of a recursive call,
and each read requests min(remaining, 4096) bytes, so a chunk never
exceeds the remaining count; hence whenever the collected bytes and the
remaining count partition the declared length L, the loop result still
partitions L, the accumulated payload never exceeds L, and the loop
stops exactly when the remaining count is 0 or a read returned empty
(which over the flat model means the stream was exhausted). -/
theorem recvPayload_invariant (L r : Nat) (s acc : List Nat)
    (hinv : acc.length + r = L) :
    (recvPayload flatRead r s acc).1.length ≤ L ∧
    (recvPayload flatRead r s acc).1.length + (recvPayload flatRead r s acc).2.1 = L ∧
    ((recvPayload flatRead r s acc).2.1 = 0 ∨ (recvPayload flatRead r s acc).2.2 = []) := by
  rw [recvPayload_flat]
  simp only [List.length_append, List.length_take]
  refine ⟨by omega, by omega, ?_⟩
  by_cases hr : r ≤ s.length
  · exact Or.inl (by omega)
  · exact Or.inr (List.drop_eq_nil_of_le (by omega))

theorem recvPayload_invariant_witness :
    (([] : List Nat)).length + 5 = 5 ∧
      ((recvPayload flatRead 5 [1, 2, 3] []).1.length ≤ 5 ∧
       (recvPayload flatRead 5 [1, 2, 3] []).1.length +
          (recvPayload flatRead 5 [1, 2, 3] []).2.1 = 5 ∧
       ((recvPayload flatRead 5 [1, 2, 3] []).2.1 = 0 ∨
        (recvPayload flatRead 5 [1, 2, 3] []).2.2 = [])) :=
  ⟨by decide, recvPayload_invariant 5 5 [1, 2, 3] [] (by decide)⟩

/-- C7: the pacer computation of the sender loop.  For every target
interval T and cycle duration d, sleep_time T d equals T - d when
d < T and equals 0 when d >= T; the model is over exact rationals, so
the floating-point tolerance of the claim collapses to equality. -/
theorem pacer_bound (T d : ℚ) :
    (d < T → sleep_time T d = T - d) ∧ (T ≤ d → sleep_time T d = 0) := by
  constructor
  · intro h
    have : (0 : ℚ) ≤ T - d := by linarith
    simp [sleep_time, max_eq_right this]
  · intro h
    have : T - d ≤ (0 : ℚ) := by linarith
    simp [sleep_time, max_eq_left this]

theorem pacer_bound_witness :
    ((1 : ℚ) / 30 < FRAME_INTERVAL ∧
      sleep_time FRAME_INTERVAL (1 / 30) = FRAME_INTERVAL - 1 / 30) ∧
    (FRAME_INTERVAL ≤ (1 : ℚ) / 10 ∧ sleep_time FRAME_INTERVAL (1 / 10) = 0) :=
  ⟨⟨by norm_num [FRAME_INTERVAL, TARGET_FPS],
    (pacer_bound FRAME_INTERVAL (1 / 30)).1 (by norm_num [FRAME_INTERVAL, TARGET_FPS])⟩,
   ⟨by norm_num [FRAME_INTERVAL, TARGET_FPS],
    (pacer_bound FRAME_INTERVAL (1 / 10)).2 (by norm_num [FRAME_INTERVAL, TARGET_FPS])⟩⟩

/-- C8: for every payload whose length the 4-byte field can carry, the
send operation appends to the handle trace exactly, in order: one write
of the 4-byte length field (whose big-endian value is the computed
payload length), one write of the full payload, and one flush, and it
returns the computed length; the two written byte strings concatenate
to the wire envelope. -/
theorem writer_steps (conn : List WriteOp) (P : List Nat)
    (h : P.length ≤ maxPayload) :
    compress_and_send_frame conn P =
      (conn ++ [WriteOp.write (packBE32 P.length), WriteOp.write P, WriteOp.flush],
       P.length) ∧
    (packBE32 P.length).length = 4 ∧
    unpackBE32 (packBE32 P.length) = P.length ∧
    packBE32 P.length ++ P = encodeEnvelope P := by
  have h32 : P.length < 2 ^ 32 := by
    have : maxPayload = 2 ^ 32 - 1 := rfl
    omega
  refine ⟨?_, packBE32_length _, unpackBE32_packBE32 _ h32, rfl⟩
  simp [compress_and_send_frame]

theorem writer_steps_witness :
    ([1, 2, 3] : List Nat).length ≤ maxPayload ∧
      compress_and_send_frame [] [1, 2, 3] =
        ([WriteOp.write (packBE32 3), WriteOp.write [1, 2, 3], WriteOp.flush], 3) :=
  ⟨by decide, by simpa using (writer_steps [] [1, 2, 3] (by decide)).1⟩

theorem fillBuf_flat (n : Nat) (buffered : List Nat) (cs : List (List Nat)) :
    (fillBuf n buffered cs).1 ++ (fillBuf n buffered cs).2.flatten =
      buffered ++ cs.flatten := by
  induction cs generalizing buffered with
  | nil => simp [fillBuf]
  | cons c cs ih =>
    rw [fillBuf]
    by_cases h : n ≤ buffered.length
    · rw [if_pos h]
    · rw [if_neg h, ih]
      simp

theorem fillBuf_enough (n : Nat) (buffered : List Nat) (cs : List (List Nat)) :
    n ≤ (fillBuf n buffered cs).1.length ∨ (fillBuf n buffered cs).2 = [] := by
  induction cs generalizing buffered with
  | nil => exact Or.inr rfl
  | cons c cs ih =>
    rw [fillBuf]
    by_cases h : n ≤ buffered.length
    · rw [if_pos h]
      exact Or.inl h
    · rw [if_neg h]
      exact ih _

/-- A chunk-model read returns the same bytes as a flat read over the
flattened stream and leaves a state flattening to the flat remainder. -/
theorem chunkRead_flat (b : SerialBuf) (n : Nat) :
    (chunkRead b n).1 = (flatBuf b).take n ∧
      flatBuf (chunkRead b n).2 = (flatBuf b).drop n := by
  have hf := fillBuf_flat n b.buffered b.pending
  rcases fillBuf_enough n b.buffered b.pending with h | h
  · constructor
    · rw [chunkRead, flatBuf, ← hf]
      exact (List.take_append_of_le_length h).symm
    · rw [chunkRead, flatBuf, flatBuf, ← hf]
      simp only
      exact (List.drop_append_of_le_length h).symm
  · constructor
    · rw [chunkRead, flatBuf, ← hf, h]
      simp
    · rw [chunkRead, flatBuf, flatBuf, ← hf, h]
      simp

/-- Unfolding: the payload loop with remaining count 0. -/
theorem recvPayload_zero {S : Type} (read : S → Nat → List Nat × S)
    (s : S) (acc : List Nat) : recvPayload read 0 s acc = (acc, 0, s) := by
  rw [recvPayload.eq_def]
  simp

/-- Unfolding: the payload loop breaks on an empty read. -/
theorem recvPayload_break {S : Type} (read : S → Nat → List Nat × S)
    (r : Nat) (s : S) (acc : List Nat) (hr : r ≠ 0)
    (hc : (read s (min r 4096)).1 = []) :
    recvPayload read r s acc = (acc, r, (read s (min r 4096)).2) := by
  rw [recvPayload.eq_def]
  simp [hr, hc]

/-- Unfolding: the payload loop consumes a nonempty chunk. -/
theorem recvPayload_cont {S : Type} (read : S → Nat → List Nat × S)
    (r : Nat) (s : S) (acc : List Nat) (hr : r ≠ 0)
    (hc : (read s (min r 4096)).1 ≠ []) :
    recvPayload read r s acc =
      recvPayload read (r - (read s (min r 4096)).1.length)
        (read s (min r 4096)).2 (acc ++ (read s (min r 4096)).1) := by
  rw [recvPayload.eq_def]
  simp [hr, hc]

/-- The payload loop behaves identically over the chunk model and over
the flattened stream: same collected bytes, same final remaining count,
and a final port state flattening to the flat remainder. -/
theorem recvPayload_chunk_flat (r : Nat) (b : SerialBuf) (acc : List Nat) :
    (recvPayload chunkRead r b acc).1 = (recvPayload flatRead r (flatBuf b) acc).1 ∧
    (recvPayload chunkRead r b acc).2.1 = (recvPayload flatRead r (flatBuf b) acc).2.1 ∧
    flatBuf (recvPayload chunkRead r b acc).2.2 =
      (recvPayload flatRead r (flatBuf b) acc).2.2 := by
  induction r using Nat.strong_induction_on generalizing b acc with
  | _ r ih =>
    by_cases hr : r = 0
    · subst hr
      rw [recvPayload_zero, recvPayload_zero]
      exact ⟨rfl, rfl, rfl⟩
    · rcases chunkRead_flat b (min r 4096) with ⟨hc1, hc2⟩
      have hflat1 : (flatRead (flatBuf b) (min r 4096)).1 =
          (flatBuf b).take (min r 4096) := rfl
      have hflat2 : (flatRead (flatBuf b) (min r 4096)).2 =
          (flatBuf b).drop (min r 4096) := rfl
      by_cases hempty : (flatBuf b).take (min r 4096) = []
      · have hcc : (chunkRead b (min r 4096)).1 = [] := by rw [hc1, hempty]
        have hfc : (flatRead (flatBuf b) (min r 4096)).1 = [] := hempty
        rw [recvPayload_break chunkRead r b acc hr hcc,
          recvPayload_break flatRead r (flatBuf b) acc hr hfc]
        exact ⟨rfl, rfl, hc2⟩
      · have hcc : (chunkRead b (min r 4096)).1 ≠ [] := by rw [hc1]; exact hempty
        have hfc : (flatRead (flatBuf b) (min r 4096)).1 ≠ [] := hempty
        rw [recvPayload_cont chunkRead r b acc hr hcc,
          recvPayload_cont flatRead r (flatBuf b) acc hr hfc,
          hc1, hflat1, hflat2]
        have hlt : r - ((flatBuf b).take (min r 4096)).length < r := by
          have := List.length_pos.mpr hempty
          omega
        rcases ih _ hlt (chunkRead b (min r 4096)).2
            (acc ++ (flatBuf b).take (min r 4096)) with ⟨ih1, ih2, ih3⟩
        rw [hc2] at ih1 ih2 ih3
        exact ⟨ih1, ih2, ih3⟩

/-- One receiver iteration behaves identically over the chunk model and
over the flattened stream: same emissions, and a final port state
flattening to the flat remainder. -/
theorem recvIter_chunk_flat (dOk : List Nat → Bool) (b : SerialBuf) :
    (recvIter dOk chunkRead b).1 = (recvIter dOk flatRead (flatBuf b)).1 ∧
    flatBuf (recvIter dOk chunkRead b).2 = (recvIter dOk flatRead (flatBuf b)).2 := by
  rcases chunkRead_flat b 4 with ⟨hc1, hc2⟩
  rcases recvPayload_chunk_flat (unpackBE32 ((flatBuf b).take 4))
      (chunkRead b 4).2 [] with ⟨hp1, hp2, hp3⟩
  rw [hc2] at hp1 hp2 hp3
  simp only [recvIter, flatRead, hc1]
  by_cases hshort : ((flatBuf b).take 4).length < 4
  · simp only [hshort, if_true]
    exact ⟨trivial, hc2⟩
  · simp only [hshort, if_false, hp1, hp2, hp3]
    by_cases hlen : (recvPayload flatRead (unpackBE32 ((flatBuf b).take 4))
        ((flatBuf b).drop 4) []).1.length = unpackBE32 ((flatBuf b).take 4)
    · simp only [hlen, if_true]
      exact ⟨trivial, hp3⟩
    · simp only [hlen, if_false]
      exact ⟨trivial, hp3⟩

/-- C4: for every well-formed envelope and every partition of its bytes
into chunks (including one-byte chunks), feeding the receiver the
chunks in order yields the same emissions as feeding it the whole
envelope in a single delivery, and in particular the same decoded
Frame: exactly the payload P the envelope carries. -/
theorem chunked_read_equivalence (dOk : List Nat → Bool) (P : List Nat)
    (cs : List (List Nat)) (hmax : P.length ≤ maxPayload)
    (hcs : cs.flatten = encodeEnvelope P) :
    (recvIter dOk chunkRead ⟨[], cs⟩).1 =
      (recvIter dOk flatRead cs.flatten).1 ∧
    (recvIter dOk chunkRead ⟨[], cs⟩).1 =
      (if dOk P then [RecvEvent.frame P] else [RecvEvent.decodeError]) := by
  have h32 : P.length < 2 ^ 32 := by
    have : maxPayload = 2 ^ 32 - 1 := rfl
    omega
  have hflat : flatBuf ⟨[], cs⟩ = cs.flatten := by
    simp [flatBuf]
  have h1 := (recvIter_chunk_flat dOk ⟨[], cs⟩).1
  rw [hflat] at h1
  refine ⟨h1, ?_⟩
  rw [h1, hcs]
  have he := recvIter_flat_envelope dOk P [] h32
  rw [List.append_nil] at he
  rw [he]

theorem chunked_read_equivalence_witness :
    ([5, 6] : List Nat).length ≤ maxPayload ∧
      ([[0], [0], [0], [2], [5], [6]] : List (List Nat)).flatten =
        encodeEnvelope [5, 6] ∧
      (recvIter (fun _ => true) chunkRead ⟨[], [[0], [0], [0], [2], [5], [6]]⟩).1 =
        (recvIter (fun _ => true) flatRead
          ([[0], [0], [0], [2], [5], [6]] : List (List Nat)).flatten).1 ∧
      (recvIter (fun _ => true) chunkRead ⟨[], [[0], [0], [0], [2], [5], [6]]⟩).1 =
        [RecvEvent.frame [5, 6]] :=
  ⟨by decide, by decide,
    by simpa using
      chunked_read_equivalence (fun _ => true) [5, 6] [[0], [0], [0], [2], [5], [6]]
        (by decide) (by decide)⟩

/-- Invariant of the fps accounting: starting from a state whose counter
already holds k processed frames and whose last report time precedes
every remaining frame time, every emission happens at one of the frame
times, at least one second after the previous report, and its value is
the cumulative frame count (k plus every frame up to that time) over
the elapsed time since start_time; consecutive emissions are at least
one second apart. -/
theorem fpsRun_props (start : ℚ) (ts : List ℚ) (k : Nat) (last : ℚ)
    (hpw : (last :: ts).Pairwise (· < ·)) :
    (∀ p ∈ fpsRun start (k, last) ts, p.1 ∈ ts ∧ last + 1 ≤ p.1 ∧
        p.2 = ((k : ℚ) + ((ts.filter fun u => decide (u ≤ p.1)).length : ℚ)) /
          (p.1 - start)) ∧
    (fpsRun start (k, last) ts).Chain' (fun a b : ℚ × ℚ => a.1 + 1 ≤ b.1) := by
  induction ts generalizing k last with
  | nil => simp [fpsRun]
  | cons t ts ih =>
    rw [List.pairwise_cons] at hpw
    obtain ⟨hlast, hpw'⟩ := hpw
    have hlt : last < t := hlast t (List.mem_cons_self t ts)
    obtain ⟨hafter, hpts⟩ := List.pairwise_cons.mp hpw'
    simp only [fpsRun]
    by_cases hemit : 1 ≤ t - last
    · rw [if_pos hemit]
      obtain ⟨ihm, ihc⟩ := ih (k + 1) t hpw'
      constructor
      · intro p hp
        rcases List.mem_cons.mp hp with hph | hpt
        · subst hph
          refine ⟨List.mem_cons_self t ts, by linarith, ?_⟩
          have hnil : ts.filter (fun u => decide (u ≤ t)) = [] := by
            refine List.filter_eq_nil_iff.mpr fun u hu => ?_
            simp only [decide_eq_true_eq]
            exact not_le.mpr (hafter u hu)
          rw [List.filter_cons, if_pos (decide_eq_true le_rfl), hnil,
            List.length_singleton]
          push_cast
          ring_nf
        · obtain ⟨hmem, hge, hval⟩ := ihm p hpt
          have htp : t ≤ p.1 := by linarith
          refine ⟨List.mem_cons_of_mem _ hmem, by linarith, ?_⟩
          rw [hval, List.filter_cons, if_pos (decide_eq_true htp)]
          rw [List.length_cons]
          push_cast
          ring_nf
      · rw [List.chain'_cons']
        refine ⟨fun y hy => ?_, ihc⟩
        have hymem : y ∈ fpsRun start (k + 1, t) ts := List.mem_of_mem_head? hy
        exact (ihm y hymem).2.1
    · rw [if_neg hemit]
      have hsub : (last :: ts).Pairwise (· < ·) := by
        rw [List.pairwise_cons]
        exact ⟨fun b hb => lt_trans hlt (hafter b hb), hpts⟩
      obtain ⟨ihm, ihc⟩ := ih (k + 1) last hsub
      refine ⟨fun p hp => ?_, ihc⟩
      obtain ⟨hmem, hge, hval⟩ := ihm p hp
      have htp : t < p.1 := hafter p.1 hmem
      refine ⟨List.mem_cons_of_mem _ hmem, hge, ?_⟩
      rw [hval, List.filter_cons, if_pos (decide_eq_true (le_of_lt htp))]
      rw [List.length_cons]
      push_cast
      ring_nf

/-- C9 (counterexample): frames complete at times 1, 6/5 and 5/2
(start time 0).  The code emits at time 1 and at time 5/2; the second
emitted value is 3 / (5/2) = 6/5, computed from the cumulative counter
frames_received = 3, which was never reset.  A rolling counter reset on
each emission, as the claim and the spec describe, would emit
2 / (3/2) = 4/3 at that moment.  The two disagree, so the emitted value
is not computed from a rolling count reset on each emission. -/
theorem fps_not_rolling :
    fpsRun 0 (0, 0) [1, 6/5, 5/2] = [(1, 1), (5/2, 6/5)] ∧
    specRollingRun 0 (0, 0) [1, 6/5, 5/2] = [(1, 1), (5/2, 4/3)] ∧
    (6/5 : ℚ) ≠ 4/3 := by
  refine ⟨by norm_num [fpsRun], by norm_num [specRollingRun], by norm_num⟩

/-- C9 (amended): the receiver emits a rate sample at most once per
second of wall-clock time — consecutive emissions are at least one
second apart, and the first comes no earlier than one second after the
loop start — but the emitted value is the cumulative frame count since
the start of the session divided by the elapsed time since the start;
the frames_received counter is never reset. -/
theorem fps_once_per_second_cumulative (start : ℚ) (ts : List ℚ)
    (hpw : (start :: ts).Pairwise (· < ·)) :
    (fpsRun start (0, start) ts).Chain' (fun a b : ℚ × ℚ => a.1 + 1 ≤ b.1) ∧
    ∀ p ∈ fpsRun start (0, start) ts, start + 1 ≤ p.1 ∧
      p.2 = (((ts.filter fun u => decide (u ≤ p.1)).length : ℚ)) / (p.1 - start) := by
  obtain ⟨hm, hc⟩ := fpsRun_props start ts 0 start hpw
  refine ⟨hc, fun p hp => ⟨(hm p hp).2.1, ?_⟩⟩
  have := (hm p hp).2.2
  rw [this]
  norm_num

theorem fps_once_per_second_cumulative_witness :
    (([0, 1, 5/2] : List ℚ).Pairwise (· < ·)) ∧
      ((fpsRun 0 (0, 0) [1, 5/2]).Chain' (fun a b : ℚ × ℚ => a.1 + 1 ≤ b.1) ∧
       ∀ p ∈ fpsRun 0 (0, 0) [1, 5/2], (0 : ℚ) + 1 ≤ p.1 ∧
         p.2 = ((([1, 5/2].filter fun u => decide (u ≤ p.1)).length : ℚ)) /
           (p.1 - 0)) :=
  ⟨by norm_num [List.pairwise_cons],
    fps_once_per_second_cumulative 0 [1, 5/2] (by norm_num [List.pairwise_cons])⟩
